import Mathlib

/-!
Verification development for the data-toolkit repository: a shallow
embedding, in Lean 4, of the pure computational core of

  * src/utils/string_utils.py        (calculate_display_width)
  * src/utils/excel_utils.py         (adjust_column_widths)
  * src/utils/merge_excel.py         (merge_excel_sheets and helpers)
  * src/exporters/hive_to_excel_exporter.py (sanitize_filename,
      get_unique_filename, write_to_excel, export)
  * src/connectors/hive_connection.py (get_hive_connection)

Python strings are modelled as Lean String (a list of Unicode code
points, matching Python's code-point semantics for iteration, slicing
and length).  Filesystem and database effects are modelled by explicit
state passing and effect traces.  Each definition carries a comment
pointing at the Python source it translates.
-/

namespace DataToolkit

/-! ## string_utils.calculate_display_width -/

/-- Translation of the regex test `re.match(r'[一-鿿]', char)` in
string_utils.py line 16: true iff the character lies in the CJK unified
ideograph range U+4E00 .. U+9FFF. -/
def isCjkChar (c : Char) : Bool :=
  0x4e00 ≤ c.toNat && c.toNat ≤ 0x9fff

/-- Per-character width: 2 for a CJK character, 1 otherwise
(string_utils.py lines 16-19). -/
def charWidth (c : Char) : Nat :=
  if isCjkChar c then 2 else 1

/-- Translation of string_utils.calculate_display_width (lines 5-20):
`if not s: return 0`, then a loop accumulating charWidth over the
characters of s. -/
def calculate_display_width (s : String) : Nat :=
  if s.data = [] then 0
  else s.data.foldl (fun w c => w + charWidth c) 0

/-! ## sanitize_filename (identical in hive_to_excel_exporter.py lines
115-125 and merge_excel.py lines 185-193) -/

/-- The character class of the regex `[<>:"/\\|?*]` used by
`re.sub(r'[<>:"/\\|?*]', '', filename)`. -/
def illegalFilenameChars : List Char :=
  ['<', '>', ':', '"', '/', '\\', '|', '?', '*']

/-- Translation of sanitize_filename: remove every character of the
illegal class, then truncate to the first 255 characters
(`sanitized[:255]`; Python slices strings by code point, as List.take
does here). -/
def sanitize_filename (s : String) : String :=
  ⟨(s.data.filter (fun c => !illegalFilenameChars.contains c)).take 255⟩

/-! ### Supporting lemmas -/

theorem foldl_charWidth (l : List Char) (n : Nat) :
    l.foldl (fun w c => w + charWidth c) n = n + (l.map charWidth).sum := by
  induction l generalizing n with
  | nil => simp
  | cons c l ih => simp [List.foldl_cons, ih, Nat.add_assoc]

theorem sum_map_charWidth (l : List Char) :
    (l.map charWidth).sum
      = 2 * (l.filter isCjkChar).length
        + (l.filter (fun c => !isCjkChar c)).length := by
  induction l with
  | nil => simp
  | cons c l ih =>
    by_cases h : isCjkChar c
    · simp [charWidth, h, ih]; omega
    · simp [charWidth, h, ih]; omega

/-! ### Claim theorems for C8 and C10 -/

/-- C8: for every string s, calculate_display_width s equals twice the
number of characters of s in the CJK unified ideograph range
U+4E00-U+9FFF plus the number of all other characters, and in
particular the width of the empty string is 0. -/
theorem display_width_formula (s : String) :
    calculate_display_width s
        = 2 * (s.data.filter isCjkChar).length
          + (s.data.filter (fun c => !isCjkChar c)).length
      ∧ calculate_display_width "" = 0 := by
  refine ⟨?_, rfl⟩
  unfold calculate_display_width
  by_cases h : s.data = []
  · simp [h]
  · simp only [h, if_neg]
    rw [foldl_charWidth, sum_map_charWidth]
    simp

/-- C10: sanitize_filename is idempotent; its output contains no
character of the illegal set and never exceeds 255 characters. -/
theorem sanitize_filename_idempotent (s : String) :
    sanitize_filename (sanitize_filename s) = sanitize_filename s
      ∧ (∀ c ∈ (sanitize_filename s).data, c ∉ illegalFilenameChars)
      ∧ (sanitize_filename s).length ≤ 255 := by
  refine ⟨?_, ?_, ?_⟩
  · unfold sanitize_filename
    apply congrArg String.mk
    have hfilter :
        ((s.data.filter (fun c => !illegalFilenameChars.contains c)).take 255).filter
            (fun c => !illegalFilenameChars.contains c)
          = (s.data.filter (fun c => !illegalFilenameChars.contains c)).take 255 := by
      apply List.filter_eq_self.mpr
      intro a ha
      have := List.take_subset 255 _ ha
      exact (List.mem_filter.mp this).2
    rw [hfilter, List.take_take]
    norm_num
  · intro c hc
    have hmem : c ∈ s.data.filter (fun c => !illegalFilenameChars.contains c) :=
      List.take_subset 255 _ hc
    have := (List.mem_filter.mp hmem).2
    simpa using this
  · show (sanitize_filename s).data.length ≤ 255
    unfold sanitize_filename
    simp [List.length_take]

/-! ## Decimal representation of counters

The Python code interpolates integer counters into filenames and sheet
names with f-strings, i.e. with str(n).  We model str on naturals by an
explicit fuel-bounded decimal-digit function (the counters are always
≥ 1, and fuel n+1 always suffices since n / 10 < n). -/

/-- Decimal digit list of n, most significant first, computed with
explicit fuel; natDigs (n+1) n is the standard decimal representation
of n, matching Python str(n). -/
def natDigs : Nat → Nat → List Char
  | 0, _ => []
  | fuel + 1, n =>
    if n < 10 then [Nat.digitChar n]
    else natDigs fuel (n / 10) ++ [Nat.digitChar (n % 10)]

/-- Model of Python str(n) for a natural number n. -/
def natStr (n : Nat) : String :=
  ⟨natDigs (n + 1) n⟩

/-- Value of a decimal digit string, used to invert natDigs. -/
def digsVal (l : List Char) : Nat :=
  l.foldl (fun a c => 10 * a + (c.toNat - 48)) 0

theorem digsVal_go (l : List Char) (a : Nat) :
    l.foldl (fun a c => 10 * a + (c.toNat - 48)) a
      = a * 10 ^ l.length + digsVal l := by
  induction l generalizing a with
  | nil => simp [digsVal]
  | cons c l ih =>
    simp only [List.foldl_cons, digsVal, List.length_cons]
    rw [ih, ih (10 * 0 + (c.toNat - 48))]
    ring

theorem digsVal_append_singleton (l : List Char) (c : Char) :
    digsVal (l ++ [c]) = 10 * digsVal l + (c.toNat - 48) := by
  unfold digsVal
  rw [List.foldl_append]
  simp

theorem digitChar_val (d : Nat) (h : d < 10) :
    (Nat.digitChar d).toNat - 48 = d := by
  interval_cases d <;> rfl

theorem digsVal_natDigs (fuel : Nat) :
    ∀ n, n < fuel → digsVal (natDigs fuel n) = n := by
  induction fuel with
  | zero => intro n h; omega
  | succ fuel ih =>
    intro n h
    unfold natDigs
    by_cases h10 : n < 10
    · simp [h10, digsVal, digitChar_val n h10]
    · rw [if_neg h10, digsVal_append_singleton]
      have hpos : 0 < n := by omega
      have hdiv : n / 10 < n := Nat.div_lt_self hpos (by norm_num)
      rw [ih (n / 10) (by omega), digitChar_val (n % 10) (Nat.mod_lt n (by norm_num))]
      omega

theorem natStr_injective {m n : Nat} (h : natStr m = natStr n) : m = n := by
  have hd : natDigs (m + 1) m = natDigs (n + 1) n := congrArg String.data h
  have hm := digsVal_natDigs (m + 1) m (by omega)
  have hn := digsVal_natDigs (n + 1) n (by omega)
  rw [hd, hn] at hm
  omega

/-! ### String cancellation helpers -/

theorem string_append_cancel_left {s a b : String} (h : s ++ a = s ++ b) :
    a = b := by
  apply String.ext
  have hd : s.data ++ a.data = s.data ++ b.data := by
    have := congrArg String.data h
    simpa [String.data_append] using this
  exact List.append_cancel_left hd

theorem string_append_cancel_right {s a b : String} (h : a ++ s = b ++ s) :
    a = b := by
  apply String.ext
  have hd : a.data ++ s.data = b.data ++ s.data := by
    have := congrArg String.data h
    simpa [String.data_append] using this
  exact List.append_cancel_right hd

/-! ## exporter get_unique_filename (hive_to_excel_exporter.py 127-141)

The registry self.existing_filenames is a Python dict from base
filename to its occurrence count.  It is modelled as a total function
String → Nat in which value 0 encodes absence of the key: the dict
only ever stores counts ≥ 1, so no information is lost. -/

/-- Translation of get_unique_filename: if the base name was never
seen, record count 1 and return base + ".xlsx" unchanged; otherwise
increment the stored count to n and return base + "_n" + ".xlsx". -/
def get_unique_filename (reg : String → Nat) (base : String) :
    (String → Nat) × String :=
  if reg base = 0 then
    (fun b => if b = base then 1 else reg b, base ++ ".xlsx")
  else
    let n := reg base + 1
    (fun b => if b = base then n else reg b, base ++ "_" ++ natStr n ++ ".xlsx")

/-- The list of filenames issued by n successive calls of
get_unique_filename with one and the same base name, threading the
registry through as the exporter run does. -/
def allocSame (base : String) : Nat → (String → Nat) → List String
  | 0, _ => []
  | n + 1, reg =>
    (get_unique_filename reg base).2
      :: allocSame base n (get_unique_filename reg base).1

/-- The filename the spec claims for the k-th call (1-based) on a given
base name. -/
def claimedName (base : String) (k : Nat) : String :=
  if k = 1 then base ++ ".xlsx" else base ++ "_" ++ natStr k ++ ".xlsx"

theorem dot_xlsx_ne_underscore_append (t : String) :
    (".xlsx" : String) ≠ "_" ++ t := by
  intro h
  have hd : ('.' :: "xlsx".data : List Char) = '_' :: t.data := by
    have := congrArg String.data h
    rw [String.data_append] at this
    exact this
  injection hd with h1 _
  exact absurd h1 (by decide)

theorem claimedName_inj (base : String) {i j : Nat}
    (hi : 1 ≤ i) (hj : 1 ≤ j) (h : claimedName base i = claimedName base j) :
    i = j := by
  unfold claimedName at h
  by_cases hi1 : i = 1 <;> by_cases hj1 : j = 1
  · omega
  · rw [if_pos hi1, if_neg hj1] at h
    simp only [String.append_assoc] at h
    exact absurd (string_append_cancel_left h) (dot_xlsx_ne_underscore_append _)
  · rw [if_neg hi1, if_pos hj1] at h
    simp only [String.append_assoc] at h
    exact absurd (string_append_cancel_left h).symm (dot_xlsx_ne_underscore_append _)
  · rw [if_neg hi1, if_neg hj1] at h
    simp only [String.append_assoc] at h
    have h1 := string_append_cancel_left h
    have h2 := string_append_cancel_left h1
    exact natStr_injective (string_append_cancel_right h2)

theorem allocSame_seen (base : String) :
    ∀ (n k : Nat) (reg : String → Nat), reg base = k → 1 ≤ k →
      allocSame base n reg
        = (List.range n).map (fun i => base ++ "_" ++ natStr (k + 1 + i) ++ ".xlsx") := by
  intro n
  induction n with
  | zero => intro k reg _ _; simp [allocSame]
  | succ n ih =>
    intro k reg hk hk1
    have hne : reg base ≠ 0 := by omega
    unfold allocSame get_unique_filename
    rw [if_neg hne]
    simp only [hk]
    rw [ih (k + 1) _ (by simp) (by omega)]
    rw [List.range_succ_eq_map]
    simp only [List.map_cons, List.map_map]
    refine List.cons_eq_cons.mpr ⟨by simp, ?_⟩
    apply List.map_congr_left
    intro i _
    simp only [Function.comp_apply]
    have harith : k + 1 + 1 + i = k + 1 + Nat.succ i := by omega
    rw [harith]

/-- C5 claim theorem (see unique_filenames below): auxiliary full
description of the issued list. -/
theorem allocSame_fresh (base : String) (reg : String → Nat)
    (hfresh : reg base = 0) :
    ∀ N, allocSame base N reg
        = (List.range N).map (fun i => claimedName base (i + 1)) := by
  intro N
  cases N with
  | zero => simp [allocSame]
  | succ n =>
    unfold allocSame get_unique_filename
    rw [if_pos hfresh]
    simp only []
    rw [allocSame_seen base n 1 _ (by simp) (by omega)]
    rw [List.range_succ_eq_map]
    simp only [List.map_cons, List.map_map]
    refine List.cons_eq_cons.mpr ⟨by simp [claimedName], ?_⟩
    apply List.map_congr_left
    intro i _
    simp only [Function.comp_apply, claimedName]
    rw [if_neg (by omega)]
    have harith : 1 + 1 + i = Nat.succ i + 1 := by omega
    rw [harith]

/-! ### Claim theorem for C5 -/

/-- C5: starting from a run in which the base name has not yet been
seen, N successive calls of get_unique_filename with that base name
return pairwise distinct filenames; the first is the base name plus
".xlsx" unchanged, the k-th for k ≥ 2 is the base name suffixed "_k"
plus ".xlsx". -/
theorem unique_filenames (base : String) (reg : String → Nat) (N : Nat)
    (hfresh : reg base = 0) :
    allocSame base N reg
        = (List.range N).map (fun i => claimedName base (i + 1))
      ∧ (allocSame base N reg).Nodup := by
  refine ⟨allocSame_fresh base reg hfresh N, ?_⟩
  rw [allocSame_fresh base reg hfresh N]
  apply List.Nodup.map_on
  · intro i hi j hj hij
    have := claimedName_inj base (i := i + 1) (j := j + 1) (by omega) (by omega) hij
    omega
  · exact List.nodup_range N

/-- C5 witness: three calls on base "表" from the fresh exporter
registry yield 表.xlsx, 表_2.xlsx, 表_3.xlsx, pairwise distinct. -/
theorem unique_filenames_witness :
    allocSame "表" 3 (fun _ => 0)
        = (List.range 3).map (fun i => claimedName "表" (i + 1))
      ∧ (allocSame "表" 3 (fun _ => 0)).Nodup :=
  unique_filenames "表" (fun _ => 0) 3 rfl

/-! ## excel_utils.adjust_column_widths (excel_utils.py lines 7-43)

Every call site in the repository passes columns_info=None, so the
header used for a column is the dataframe column name itself (line 21:
column_comment_dict maps each column to itself, and the .get on line 27
returns the column).  One column is modelled by its header string and
the stringified cell values df[column].astype(str). -/

structure ColumnData where
  header : String
  cells : List String

/-- Data term of one column (excel_utils.py lines 33-36): the maximum
display width of the stringified cells, or 0 when the column is
empty. -/
def column_data_term (cells : List String) : Nat :=
  if cells ≠ [] then (cells.map calculate_display_width).foldl Nat.max 0
  else 0

/-- Width assigned to one column (excel_utils.py lines 39-43):
min(max(header display width, data term) + 2, max_width). -/
def adjusted_column_width (col : ColumnData) (max_width : Nat) : Nat :=
  let header_width := calculate_display_width col.header
  let data_max_length := column_data_term col.cells
  min (max header_width data_max_length + 2) max_width

/-- Translation of adjust_column_widths over a whole sheet: the widths
assigned to the columns in order.  The ceiling max_width defaults to
100 (line 7) and no call site in the repository overrides it. -/
def adjust_column_widths (cols : List ColumnData) (max_width : Nat := 100) :
    List Nat :=
  cols.map (fun col => adjusted_column_width col max_width)

/-! ### Claim theorem for C7 -/

/-- C7: each column's assigned width equals min(max(header display
width, max per-cell display width) + 2, max_width), with data term 0
for an empty column; every assigned width is at most max_width; and
for an empty-data column the width is at least min(header display
width, 2) whenever the configured ceiling is at least 2 (the
repository's configured value is the default 100). -/
theorem column_width_spec (cols : List ColumnData) (max_width : Nat) :
    adjust_column_widths cols max_width
        = cols.map (fun col =>
            min (max (calculate_display_width col.header)
                     (column_data_term col.cells) + 2) max_width)
      ∧ (∀ col ∈ cols, adjusted_column_width col max_width ≤ max_width)
      ∧ (∀ col ∈ cols, col.cells = [] → 2 ≤ max_width →
            min (calculate_display_width col.header) 2
              ≤ adjusted_column_width col max_width) := by
  refine ⟨rfl, ?_, ?_⟩
  · intro col _
    exact min_le_right _ _
  · intro col _ hempty hmw
    have hterm : column_data_term col.cells = 0 := by
      simp [column_data_term, hempty]
    have hw : adjusted_column_width col max_width
        = min (calculate_display_width col.header + 2) max_width := by
      simp [adjusted_column_width, hterm]
    rw [hw]
    omega

/-- C7 witness: a single empty CJK-headed column at the default
ceiling 100. -/
theorem column_width_spec_witness :
    adjusted_column_width ⟨"名字", []⟩ 100 ≤ 100
      ∧ min (calculate_display_width "名字") 2
          ≤ adjusted_column_width ⟨"名字", []⟩ 100 :=
  ⟨(column_width_spec [⟨"名字", []⟩] 100).2.1 ⟨"名字", []⟩ (by simp),
   (column_width_spec [⟨"名字", []⟩] 100).2.2 ⟨"名字", []⟩ (by simp) rfl (by norm_num)⟩

/-! ## merge_excel.group_files_by_common_prefix (merge_excel.py 146-162)

For each file name the code evaluates re.match(r'^[^_]+_', file): the
regex matches exactly when the name starts with at least one
non-underscore character followed by an underscore, and the matched
text is then the maximal initial run of non-underscore characters plus
the first underscore.  (Backtracking cannot produce any other match:
every character of the run differs from the underscore the regex needs
next.)  Files with no match are keyed by the literal catch-all
"无前缀" ("no prefix"). -/

/-- Group key of one file name, translating lines 156-160. -/
def groupKeyOf (f : String) : String :=
  let run := f.data.takeWhile (fun c => c ≠ '_')
  if 1 ≤ run.length ∧ run.length < f.data.length then ⟨run ++ ['_']⟩
  else "无前缀"

/-- Translation of the defaultdict built by
group_files_by_common_prefix: keys in first-appearance order, each with
the files that map to it, in input order. -/
def group_files_by_common_pfx (files : List String) :
    List (String × List String) :=
  ((files.map groupKeyOf).dedup).map
    (fun k => (k, files.filter (fun f => groupKeyOf f = k)))

/-! ### Claim theorems for C4 -/

theorem takeWhile_length_lt_iff_mem (l : List Char) :
    (l.takeWhile (fun c => c ≠ '_')).length < l.length ↔ '_' ∈ l := by
  induction l with
  | nil => simp
  | cons c l ih =>
    by_cases hc : c = '_'
    · subst hc
      simp [List.takeWhile_cons]
    · rw [List.takeWhile_cons, if_pos (by simp [hc])]
      simp only [List.length_cons, List.mem_cons]
      constructor
      · intro h
        exact Or.inr (ih.mp (by omega))
      · intro h
        rcases h with h | h
        · exact absurd h.symm hc
        · have := ih.mpr h
          omega

/-- Characterization of the group key: the regex branch fires exactly
for names that are nonempty, do not start with an underscore, and
contain an underscore. -/
theorem groupKeyOf_characterization (f : String) :
    groupKeyOf f
      = if f.data ≠ [] ∧ f.data.head? ≠ some '_' ∧ '_' ∈ f.data
        then ⟨f.data.takeWhile (fun c => c ≠ '_') ++ ['_']⟩
        else "无前缀" := by
  unfold groupKeyOf
  refine if_congr ?_ rfl rfl
  cases hd : f.data with
  | nil => simp
  | cons c l =>
    by_cases hc : c = '_'
    · subst hc
      constructor
      · intro hcond
        exfalso
        rw [List.takeWhile_cons, if_neg (by simp)] at hcond
        simp at hcond
      · intro hcond
        exact absurd rfl hcond.2.1
    · rw [List.takeWhile_cons, if_pos (by simp [hc])]
      constructor
      · intro hcond
        obtain ⟨-, h2⟩ := hcond
        simp only [List.length_cons] at h2
        refine ⟨by simp, by simp [hc], ?_⟩
        exact List.mem_cons_of_mem _ ((takeWhile_length_lt_iff_mem l).mp (by omega))
      · intro hcond
        obtain ⟨-, -, h3⟩ := hcond
        have h3' : '_' ∈ l := by
          rcases List.mem_cons.mp h3 with h | h
          · exact absurd h.symm hc
          · exact h
        have hlt := (takeWhile_length_lt_iff_mem l).mpr h3'
        simp only [List.length_cons]
        exact ⟨by omega, by omega⟩

/-- C4 counterexample: the name "_foo.xlsx" contains an underscore,
but with no fixed prefix the merger assigns it to the catch-all
no-prefix group "无前缀" rather than to a group keyed by "_", its
substring up to and including the first underscore. -/
theorem grouping_counterexample :
    ('_' ∈ "_foo.xlsx".data)
      ∧ groupKeyOf "_foo.xlsx" = "无前缀"
      ∧ ("无前缀" : String) ≠ "_"
      ∧ group_files_by_common_pfx ["_foo.xlsx"]
          = [("无前缀", ["_foo.xlsx"])] := by
  refine ⟨by decide, by decide, by decide, by decide⟩

/-- C4 amended: with no fixed prefix, a file name that is nonempty,
does not start with an underscore and contains an underscore is
grouped under its substring up to and including the first underscore;
every other file name (no underscore, or a leading underscore) goes to
the catch-all group "无前缀"; the groups partition the input list:
group keys are pairwise distinct, every file belongs to the group of
its own key, and to a group exactly when that group's key is the
file's key. -/
theorem grouping_partition (files : List String) :
    (∀ f : String, (f.data ≠ [] ∧ f.data.head? ≠ some '_' ∧ '_' ∈ f.data) →
        groupKeyOf f = ⟨f.data.takeWhile (fun c => c ≠ '_') ++ ['_']⟩)
      ∧ (∀ f : String, ¬(f.data ≠ [] ∧ f.data.head? ≠ some '_' ∧ '_' ∈ f.data) →
        groupKeyOf f = "无前缀")
      ∧ (∀ f ∈ files, ∀ k fl, (k, fl) ∈ group_files_by_common_pfx files →
            (f ∈ fl ↔ k = groupKeyOf f))
      ∧ (∀ f ∈ files,
            (groupKeyOf f, files.filter (fun g => groupKeyOf g = groupKeyOf f))
              ∈ group_files_by_common_pfx files)
      ∧ ((group_files_by_common_pfx files).map Prod.fst).Nodup := by
  refine ⟨?_, ?_, ?_, ?_, ?_⟩
  · intro f hf
    rw [groupKeyOf_characterization, if_pos hf]
  · intro f hf
    rw [groupKeyOf_characterization, if_neg hf]
  · intro f hfmem k fl hkfl
    unfold group_files_by_common_pfx at hkfl
    rcases List.mem_map.mp hkfl with ⟨k', _, hpair⟩
    have hk : k' = k := (Prod.mk.injEq _ _ _ _ ▸ hpair).1
    have hfl : fl = files.filter (fun g => groupKeyOf g = k) := by
      have := (Prod.mk.injEq _ _ _ _ ▸ hpair).2
      rw [← this, hk]
    subst hfl
    constructor
    · intro hin
      have := (List.mem_filter.mp hin).2
      simp only [decide_eq_true_eq] at this
      exact this.symm
    · intro hkey
      apply List.mem_filter.mpr
      exact ⟨hfmem, by simp [hkey]⟩
  · intro f hfmem
    unfold group_files_by_common_pfx
    apply List.mem_map.mpr
    refine ⟨groupKeyOf f, ?_, rfl⟩
    exact List.mem_dedup.mpr (List.mem_map.mpr ⟨f, hfmem, rfl⟩)
  · unfold group_files_by_common_pfx
    rw [List.map_map]
    have : (Prod.fst ∘ fun k => (k, files.filter (fun f => groupKeyOf f = k)))
        = id := by
      funext k
      rfl
    rw [this, List.map_id]
    exact List.nodup_dedup _

/-- C4 witness for the amended claim: concrete keys for a matching
name, a no-underscore name and a leading-underscore name. -/
theorem grouping_partition_witness :
    groupKeyOf "sales_jan.xlsx"
        = ⟨"sales_jan.xlsx".data.takeWhile (fun c => c ≠ '_') ++ ['_']⟩
      ∧ groupKeyOf "plain.xlsx" = "无前缀" :=
  ⟨(grouping_partition ["sales_jan.xlsx"]).1 "sales_jan.xlsx" (by decide),
   (grouping_partition ["plain.xlsx"]).2.1 "plain.xlsx" (by decide)⟩

/-! ## merge_excel.get_unique_sheet_name (merge_excel.py 196-211)

The Python while-loop tries base_1, base_2, ... until it finds a name
not in existing_names.  The candidate names are pairwise distinct and
existing_names is finite, so the loop terminates within
existing.card + 1 attempts; it is modelled with that fuel, and the
fuel-exhausted branch is proved unreachable below.  The Python set
existing_names is modelled as a Finset String. -/

/-- Candidate sheet name tried for a given counter (line 208). -/
def sheetCand (base : String) (k : Nat) : String :=
  base ++ "_" ++ natStr k

/-- The while-loop of get_unique_sheet_name (lines 206-211). -/
def sheetNameLoop (base : String) (existing : Finset String) :
    Nat → Nat → String
  | counter, 0 => sheetCand base counter
  | counter, fuel + 1 =>
    if sheetCand base counter ∈ existing then
      sheetNameLoop base existing (counter + 1) fuel
    else sheetCand base counter

/-- Translation of get_unique_sheet_name: return the base name when it
is unused (lines 204-205), else run the counter loop from 1. -/
def get_unique_sheet_name (base : String) (existing : Finset String) :
    String :=
  if base ∉ existing then base
  else sheetNameLoop base existing 1 (existing.card + 1)

theorem sheetCand_inj (base : String) {i j : Nat}
    (h : sheetCand base i = sheetCand base j) : i = j := by
  unfold sheetCand at h
  exact natStr_injective (string_append_cancel_left h)

/-- Pigeonhole: among existing.card + 1 consecutive candidate names at
least one is unused. -/
theorem exists_fresh_cand (base : String) (existing : Finset String)
    (counter : Nat) :
    ∃ k, counter ≤ k ∧ k < counter + (existing.card + 1)
      ∧ sheetCand base k ∉ existing := by
  by_contra hcon
  push_neg at hcon
  have hall : ∀ k, counter ≤ k → k < counter + (existing.card + 1) →
      sheetCand base k ∈ existing := hcon
  have hnodup : ((List.range' counter (existing.card + 1)).map
      (sheetCand base)).Nodup := by
    apply List.Nodup.map_on
    · intro i _ j _ hij
      exact sheetCand_inj base hij
    · exact List.nodup_range' _ _
  have hsub : ((List.range' counter (existing.card + 1)).map
      (sheetCand base)).toFinset ⊆ existing := by
    intro x hx
    rcases List.mem_map.mp (List.mem_toFinset.mp hx) with ⟨k, hk, rfl⟩
    rcases List.mem_range'_1.mp hk with ⟨h1, h2⟩
    exact hall k h1 h2
  have hcard := Finset.card_le_card hsub
  rw [List.toFinset_card_of_nodup hnodup, List.length_map,
      List.length_range'] at hcard
  omega

theorem sheetNameLoop_spec (base : String) (existing : Finset String) :
    ∀ fuel counter,
      (∃ k, counter ≤ k ∧ k < counter + fuel ∧ sheetCand base k ∉ existing) →
      ∃ k, counter ≤ k ∧ sheetCand base k ∉ existing
        ∧ sheetNameLoop base existing counter fuel = sheetCand base k
        ∧ ∀ j, counter ≤ j → j < k → sheetCand base j ∈ existing := by
  intro fuel
  induction fuel with
  | zero =>
    intro counter hex
    obtain ⟨k, h1, h2, -⟩ := hex
    omega
  | succ fuel ih =>
    intro counter hex
    unfold sheetNameLoop
    by_cases hmem : sheetCand base counter ∈ existing
    · rw [if_pos hmem]
      obtain ⟨k, hk1, hk2, hk3⟩ := hex
      have hkne : k ≠ counter := fun he => hk3 (he ▸ hmem)
      obtain ⟨k', h1, h2, h3, h4⟩ :=
        ih (counter + 1) ⟨k, by omega, by omega, hk3⟩
      refine ⟨k', by omega, h2, h3, ?_⟩
      intro j hj1 hj2
      by_cases hj : j = counter
      · exact hj ▸ hmem
      · exact h4 j (by omega) hj2
    · rw [if_neg hmem]
      exact ⟨counter, Nat.le_refl _, hmem, rfl, fun j h1 h2 => by omega⟩

/-! ### Per-workbook sheet-name issuance (merge_excel.py 82-129)

Inside the with-block for one output workbook the merger resets
existing_sheet_names to the empty set (line 84) and then, for every
requested sheet of every file of the group, issues a unique name and
adds it to the set (lines 114-115).  The sequence of base sheet names
requested within one workbook is abstracted as a list; issuance is the
fold below. -/

def issueStep (st : Finset String × List String) (base : String) :
    Finset String × List String :=
  (insert (get_unique_sheet_name base st.1) st.1,
   st.2 ++ [get_unique_sheet_name base st.1])

/-- All sheet names issued within one output workbook, in order,
starting from the empty registry. -/
def issueSheetNames (bases : List String) : List String :=
  (bases.foldl issueStep (∅, [])).2

/-- One workbook per group: the registry is created afresh inside each
group's with-block, so the names of each workbook are a function of
that group's base names alone. -/
def mergeWorkbooks (groups : List (List String)) : List (List String) :=
  groups.map issueSheetNames

theorem get_unique_sheet_name_not_mem (base : String)
    (existing : Finset String) :
    get_unique_sheet_name base existing ∉ existing := by
  unfold get_unique_sheet_name
  by_cases hb : base ∉ existing
  · rw [if_pos hb]; exact hb
  · rw [if_neg hb]
    obtain ⟨k, -, hk2, hk3, -⟩ :=
      sheetNameLoop_spec base existing (existing.card + 1) 1
        (exists_fresh_cand base existing 1)
    rw [hk3]; exact hk2

theorem issue_fold_invariant (bases : List String) :
    ∀ st : Finset String × List String,
      (∀ x ∈ st.2, x ∈ st.1) → st.2.Nodup →
      (∀ x ∈ (bases.foldl issueStep st).2, x ∈ (bases.foldl issueStep st).1)
        ∧ (bases.foldl issueStep st).2.Nodup := by
  induction bases with
  | nil => intro st h1 h2; exact ⟨h1, h2⟩
  | cons b bases ih =>
    intro st h1 h2
    simp only [List.foldl_cons]
    apply ih
    · intro x hx
      unfold issueStep
      rcases List.mem_append.mp hx with hx | hx
      · exact Finset.mem_insert_of_mem (h1 x hx)
      · rcases List.mem_singleton.mp hx with rfl
        exact Finset.mem_insert_self _ _
    · unfold issueStep
      rw [List.nodup_append]
      refine ⟨h2, List.nodup_singleton _, ?_⟩
      intro x hx hx1
      rcases List.mem_singleton.mp hx1 with rfl
      exact get_unique_sheet_name_not_mem b st.1 (h1 _ hx)

/-! ### Claim theorem for C6 -/

/-- C6: a name issued by get_unique_sheet_name is never one of the
already-issued names: the base name is returned when unused, and
otherwise the first unused of base_1, base_2, ... in order; within one
output workbook all issued sheet names are pairwise distinct, and the
names issued for one workbook are a function of that workbook's base
names alone, independent of the other output workbooks of the run. -/
theorem sheet_name_uniqueness (base : String) (existing : Finset String)
    (groups pre post : List (List String)) (g : List String) :
    (get_unique_sheet_name base existing ∉ existing)
      ∧ (base ∉ existing → get_unique_sheet_name base existing = base)
      ∧ (base ∈ existing →
          ∃ k, 1 ≤ k ∧ sheetCand base k ∉ existing
            ∧ get_unique_sheet_name base existing = sheetCand base k
            ∧ ∀ j, 1 ≤ j → j < k → sheetCand base j ∈ existing)
      ∧ (∀ ws ∈ mergeWorkbooks groups, ws.Nodup)
      ∧ mergeWorkbooks (pre ++ g :: post)
          = mergeWorkbooks pre ++ issueSheetNames g :: mergeWorkbooks post := by
  refine ⟨get_unique_sheet_name_not_mem base existing, ?_, ?_, ?_, ?_⟩
  · intro hb
    unfold get_unique_sheet_name
    rw [if_pos hb]
  · intro hb
    unfold get_unique_sheet_name
    rw [if_neg (by simpa using hb)]
    exact sheetNameLoop_spec base existing (existing.card + 1) 1
      (exists_fresh_cand base existing 1)
  · intro ws hws
    rcases List.mem_map.mp hws with ⟨bases, -, rfl⟩
    exact (issue_fold_invariant bases (∅, []) (by simp) List.nodup_nil).2
  · unfold mergeWorkbooks
    simp

/-- C6 witness: with "a" and "a_1" already issued, the next issuance of
base "a" returns a name outside the registry; concretely the least
unused suffix exists, and a two-workbook run issues each workbook's
names independently. -/
theorem sheet_name_uniqueness_witness :
    (get_unique_sheet_name "a" ({"a", "a_1"} : Finset String)
        ∉ ({"a", "a_1"} : Finset String))
      ∧ (∃ k, 1 ≤ k ∧ sheetCand "a" k ∉ ({"a", "a_1"} : Finset String)
          ∧ get_unique_sheet_name "a" ({"a", "a_1"} : Finset String)
              = sheetCand "a" k
          ∧ ∀ j, 1 ≤ j → j < k →
              sheetCand "a" j ∈ ({"a", "a_1"} : Finset String)) :=
  ⟨(sheet_name_uniqueness "a" {"a", "a_1"} [] [] [] []).1,
   (sheet_name_uniqueness "a" {"a", "a_1"} [] [] [] []).2.2.1 (by decide)⟩

/-! ## merge_excel.merge_excel_sheets (merge_excel.py 11-143)

Arguments and environment.  source_sheet_indices may be any Python
value: None, a list whose elements are ints or anything else, or a
non-list.  (Validation only inspects isinstance and the < 1 bound, so
this three-way shape is all it can observe.)  The filesystem and the
spreadsheet library are an explicit environment; the run result is the
ordered trace of filesystem actions together with the normal or
exceptional outcome. -/

inductive PyElem
  | int (n : Int)
  | notInt
deriving DecidableEq

inductive IdxArg
  | noneArg
  | listArg (xs : List PyElem)
  | nonListArg
deriving DecidableEq

inductive MergeErr
  | typeErr
  | valueErr
  | fileNotFound
deriving DecidableEq

/-- Filesystem actions of a merge run, recorded in program order. -/
inductive FsOp
  | mkdirOutput
  | listInputFiles
  | createWorkbook (g : String)
  | writeSheet (name : String)
  | deleteSource (f : String)
deriving DecidableEq

/-- Element check of merge_excel.py line 40:
isinstance(idx, int) and idx ≥ 1. -/
def okElem : PyElem → Bool
  | .int n => decide (1 ≤ n)
  | .notInt => false

/-- Lines 33-41: None defaults to [1]; a non-list raises TypeError; a
list raises ValueError when some element is not an int ≥ 1 (the
for-loop checks each element, so an empty list passes). -/
def merge_validate_indices : IdxArg → Except MergeErr (List PyElem)
  | .noneArg => .ok [.int 1]
  | .nonListArg => .error .typeErr
  | .listArg xs => if xs.all okElem then .ok xs else .error .valueErr

theorem merge_validate_indices_list (xs : List PyElem) :
    merge_validate_indices (.listArg xs)
      = if xs.all okElem then .ok xs else .error .valueErr := rfl

def strEndsWith (s t : String) : Bool := t.data.isSuffixOf s.data

def strStartsWith (s t : String) : Bool := t.data.isPrefixOf s.data

/-- Stem of os.path.splitext(f): everything before the last dot, or
the whole name when there is none.  (The cpython corner case of a name
whose every leading character is a dot is not modelled; the merger
only applies this to names it filtered with endswith ".xlsx".) -/
def fileStem (f : String) : String :=
  if '.' ∈ f.data then
    ⟨(f.data.reverse.drop
        ((f.data.reverse.takeWhile (fun c => c ≠ '.')).length + 1)).reverse⟩
  else f

/-- Environment of one merge run: whether the input folder exists, its
listing, each file's sheet names, and whether pandas can read each
file.  Per-sheet write failures and deletion failures are caught and
only logged (lines 127-129, 136-137), so they do not change the trace
of attempted actions recorded here. -/
structure MergeEnv where
  input_exists : Bool
  listing : List String
  sheetsOf : String → List String
  readOk : String → Bool

/-- Base sheet names requested from one file (lines 100-112): for each
requested index the file actually has, the file stem alone when the
file has exactly one sheet, else the stem joined with the selected
source-sheet name. -/
def requestedBases (env : MergeEnv) (sheetPfx : String)
    (indices : List Int) (f : String) : List String :=
  (indices.filter
      (fun idx => decide (idx ≤ ((env.sheetsOf f).length : Int)))).map
    (fun idx =>
      if (env.sheetsOf f).length = 1 then sheetPfx ++ fileStem f
      else
        sheetPfx ++ fileStem f ++ "_"
          ++ (env.sheetsOf f).getD (idx.toNat - 1) "")

/-- Per-group body (lines 82-137): the sheet-name registry starts
empty for the group's workbook; every requested sheet of every
readable file is issued a unique name and written; files whose read
fails are skipped entirely, including their deletion (the except of
line 93 continues to the next file); after a readable file's sheets
the source file is deleted when delete_source is set. -/
def processGroupOps (env : MergeEnv) (indices : List Int)
    (sheetPfx : String) (delete_source : Bool) (files : List String) :
    List FsOp :=
  (files.foldl
    (fun (st : Finset String × List FsOp) f =>
      if env.readOk f then
        let st' := (requestedBases env sheetPfx indices f).foldl
          (fun (st2 : Finset String × List FsOp) b =>
            (insert (get_unique_sheet_name b st2.1) st2.1,
             st2.2 ++ [FsOp.writeSheet (get_unique_sheet_name b st2.1)]))
          st
        if delete_source then (st'.1, st'.2 ++ [FsOp.deleteSource f])
        else st'
      else st)
    (∅, [])).2

/-- Translation of merge_excel_sheets (lines 11-143).  Stages in
source order: validate indices (33-41); input-folder check (43-45);
create output folder (47-48); list the .xlsx files (50-51); return if
none (55-57); filter by the fixed prefix or group by common prefix
(59-73); per group create one workbook and process it (76-137).  The
collision counter of generate_output_filename (165-182) concerns the
output file name only and is not recorded in the trace. -/
def merge_excel_sheets (env : MergeEnv) (idxArg : IdxArg)
    (filePfx : Option String) (sheetPfx : String) (delete_source : Bool) :
    List FsOp × Except MergeErr Unit :=
  match merge_validate_indices idxArg with
  | .error e => ([], .error e)
  | .ok elems =>
    if env.input_exists = false then ([], .error .fileNotFound)
    else
      let indices := elems.map (fun e =>
        match e with | .int n => n | .notInt => 0)
      let ops0 := [FsOp.mkdirOutput, FsOp.listInputFiles]
      let excel_files := env.listing.filter (fun f => strEndsWith f ".xlsx")
      if excel_files.length = 0 then (ops0, .ok ())
      else
        match filePfx with
        | some p =>
          let selected := excel_files.filter (fun f => strStartsWith f p)
          if selected.length = 0 then (ops0, .ok ())
          else
            (ops0 ++ FsOp.createWorkbook p
              :: processGroupOps env indices sheetPfx delete_source selected,
             .ok ())
        | none =>
          (ops0 ++ (group_files_by_common_pfx excel_files).flatMap
              (fun g => FsOp.createWorkbook g.1
                :: processGroupOps env indices sheetPfx delete_source g.2),
           .ok ())

/-- A merge environment whose input folder is missing. -/
def emptyMergeEnv : MergeEnv :=
  { input_exists := false
    listing := []
    sheetsOf := fun _ => []
    readOk := fun _ => true }

/-! ### Claim theorems for C3 and C9 -/

/-- C3 counterexample: the empty index list passes validation — the
per-element loop of line 39 has nothing to check — and a call made
with it proceeds beyond validation, failing later with
FileNotFoundError on a missing input folder instead of the validation
error the claim requires for an empty list. -/
theorem index_validation_counterexample :
    merge_validate_indices (.listArg []) = .ok []
      ∧ merge_excel_sheets emptyMergeEnv (.listArg []) none "" true
          = ([], .error .fileNotFound) :=
  ⟨rfl, rfl⟩

/-- C3 amended: merge_excel_sheets validates its sheet-index argument
before touching any files.  Validation succeeds exactly when the
argument is None or a list all of whose elements are integers ≥ 1 —
the empty list passes vacuously; a non-list raises TypeError; a list
with a non-integer or an integer below 1 raises ValueError; on any
validation error the run performs no filesystem operation. -/
theorem index_validation_amended (env : MergeEnv) (idxArg : IdxArg)
    (filePfx : Option String) (sheetPfx : String) (ds : Bool) :
    ((∃ v, merge_validate_indices idxArg = .ok v)
        ↔ idxArg = .noneArg
          ∨ ∃ xs, idxArg = .listArg xs
              ∧ ∀ x ∈ xs, ∃ n : Int, x = .int n ∧ 1 ≤ n)
      ∧ merge_validate_indices .nonListArg = .error .typeErr
      ∧ (∀ xs, (∃ x ∈ xs, okElem x = false) →
            merge_validate_indices (.listArg xs) = .error .valueErr)
      ∧ (∀ e, merge_validate_indices idxArg = .error e →
            merge_excel_sheets env idxArg filePfx sheetPfx ds
              = ([], .error e)) := by
  refine ⟨?_, rfl, ?_, ?_⟩
  · constructor
    · intro ⟨v, hv⟩
      cases idxArg with
      | noneArg => exact Or.inl rfl
      | nonListArg => exact absurd hv (by simp [merge_validate_indices])
      | listArg xs =>
        refine Or.inr ⟨xs, rfl, ?_⟩
        intro x hx
        rw [merge_validate_indices_list] at hv
        by_cases hall : xs.all okElem
        · have := List.all_eq_true.mp hall x hx
          cases x with
          | int n =>
            exact ⟨n, rfl, by simpa [okElem] using this⟩
          | notInt => simp [okElem] at this
        · rw [if_neg hall] at hv
          exact absurd hv (by simp)
    · intro h
      rcases h with rfl | ⟨xs, rfl, hxs⟩
      · exact ⟨[.int 1], rfl⟩
      · refine ⟨xs, ?_⟩
        rw [merge_validate_indices_list]
        rw [if_pos ?_]
        apply List.all_eq_true.mpr
        intro x hx
        obtain ⟨n, rfl, hn⟩ := hxs x hx
        simpa [okElem] using hn
  · intro xs ⟨x, hx, hbad⟩
    rw [merge_validate_indices_list]
    rw [if_neg ?_]
    intro hall
    have := List.all_eq_true.mp hall x hx
    rw [hbad] at this
    exact Bool.false_ne_true this
  · intro e he
    unfold merge_excel_sheets
    rw [he]

/-- C3 amended witness: the bad element 0 yields ValueError and the
run touches nothing; a non-list yields TypeError likewise. -/
theorem index_validation_amended_witness :
    merge_excel_sheets emptyMergeEnv (.listArg [.int 0]) none "" true
      = ([], .error .valueErr)
      ∧ merge_excel_sheets emptyMergeEnv .nonListArg none "" true
          = ([], .error .typeErr) :=
  ⟨(index_validation_amended emptyMergeEnv (.listArg [.int 0]) none "" true).2.2.2
      .valueErr rfl,
   (index_validation_amended emptyMergeEnv .nonListArg none "" true).2.2.2
      .typeErr rfl⟩

/-- C9: when the index argument passes validation and the input folder
does not exist, the run raises FileNotFoundError with an empty
filesystem trace: the output folder is not created and nothing is
enumerated, written or deleted. -/
theorem missing_input_folder (env : MergeEnv) (idxArg : IdxArg)
    (v : List PyElem) (filePfx : Option String) (sheetPfx : String)
    (ds : Bool) (hval : merge_validate_indices idxArg = .ok v)
    (hex : env.input_exists = false) :
    merge_excel_sheets env idxArg filePfx sheetPfx ds
      = ([], .error .fileNotFound) := by
  simp [merge_excel_sheets, hval, hex]

/-- C9 witness: the default None argument against a missing folder. -/
theorem missing_input_folder_witness :
    merge_excel_sheets emptyMergeEnv .noneArg none "" true
      = ([], .error .fileNotFound) :=
  missing_input_folder emptyMergeEnv .noneArg [.int 1] none "" true rfl rfl

/-! ## connectors.hive_connection.get_hive_connection (lines 23-63)

After successful credential validation the contextmanager body is

    try:
        connection = hive.Connection(...)
        yield connection
    except Exception as e:
        print(...); raise
    finally:
        if connection:
            connection.close()

Python semantics embedded here: the local variable connection is
unbound until its assignment completes.  When hive.Connection raises,
the except clause re-raises the original exception, and the finally
clause then evaluates the truth of the unbound local, which raises
UnboundLocalError; that new exception replaces the propagating one and
close() is never called.  When the open succeeds, a caller-body
exception is thrown into the generator at the yield, caught by the
except clause and re-raised unchanged, and the finally clause closes
the bound, truthy connection exactly once; on normal completion the
finally clause closes it exactly once as well.  Exceptions are
identified by a numeric token so that "re-raised unchanged" is
expressible. -/

inductive HiveExn
  | original (e : Nat)
  | unboundLocal
deriving DecidableEq

structure HiveOutcome where
  result : Except HiveExn Unit
  closes : Nat

/-- Translation of get_hive_connection's try/except/finally, indexed
by the outcome of hive.Connection and the outcome of the caller's
with-block body. -/
def get_hive_connection (openResult : Except Nat Unit)
    (body : Except Nat Unit) : HiveOutcome :=
  match openResult with
  | .ok _ =>
    match body with
    | .ok _ => { result := .ok (), closes := 1 }
    | .error e => { result := .error (.original e), closes := 1 }
  | .error _e => { result := .error .unboundLocal, closes := 0 }

/-! ### Claim theorem for C1 -/

/-- C1: evaluation of the connection manager.  When the open succeeds
the session is closed exactly once whether the caller's body returns
(first conjunct) or raises (second conjunct, the body's exception
re-raised unchanged).  But when the open fails — here with exception
token 3 — the caller receives UnboundLocalError from the finally
clause's read of the unbound local, not the original exception, and no
close happens: the open failure is not re-raised unchanged, contrary
to the claim and to the intent of the bare raise in the except
clause. -/
theorem hive_connection_open_failure :
    get_hive_connection (.ok ()) (.ok ()) = { result := .ok (), closes := 1 }
      ∧ get_hive_connection (.ok ()) (.error 7)
          = { result := .error (.original 7), closes := 1 }
      ∧ get_hive_connection (.error 3) (.ok ())
          = { result := .error .unboundLocal, closes := 0 }
      ∧ get_hive_connection (.error 3) (.ok ())
          ≠ { result := .error (.original 3), closes := 0 } := by
  refine ⟨rfl, rfl, rfl, ?_⟩
  intro h
  have h2 : (Except.error HiveExn.unboundLocal : Except HiveExn Unit)
      = Except.error (HiveExn.original 3) := congrArg HiveOutcome.result h
  injection h2 with h3
  cases h3

/-! ## HiveToExcelExporter.write_to_excel and export
(hive_to_excel_exporter.py 143-276)

A table as the export loop sees it after discovery.  queryOk abstracts
whether get_table_comment, get_table_description and fetch_table_data
all succeed; their exceptions are caught by the per-table except of
line 258.  writeOk abstracts whether the ExcelWriter block of
write_to_excel raises; such an exception is re-raised at line 208 and
caught by the same per-table except.  (A raising writer block is
modelled as creating no file; only runs with writeOk true are used to
settle the claim.) -/

structure TableRun where
  name : String
  comment : String
  queryOk : Bool
  writeOk : Bool

/-- Result of one write_to_excel call: the output directory contents,
the filename registry, whether a workbook was written, and whether the
call raised. -/
structure WriteResult where
  fs : List String
  reg : String → Nat
  wrote : Bool
  raised : Bool

/-- Translation of write_to_excel (lines 154-208): the base name is
the sanitized comment, with fallback "输出" when sanitization leaves
the empty (falsy) string; a fresh filename is drawn from the run
registry; if a file of that name is already on disk the function
prints a warning and returns without writing (lines 162-165; the
code's own comment calls this branch an unreachable safety measure);
otherwise the workbook is written, and a raise inside the writer block
propagates to the caller (line 208). -/
def write_to_excel (fs : List String) (reg : String → Nat)
    (t : TableRun) : WriteResult :=
  let valid := if sanitize_filename t.comment = "" then "输出"
               else sanitize_filename t.comment
  let r := get_unique_filename reg valid
  if r.2 ∈ fs then
    { fs := fs, reg := r.1, wrote := false, raised := false }
  else if t.writeOk then
    { fs := r.2 :: fs, reg := r.1, wrote := true, raised := false }
  else
    { fs := fs, reg := r.1, wrote := false, raised := true }

/-- State threaded through the export loop (lines 226-260). -/
structure ExportState where
  fs : List String
  reg : String → Nat
  exported : Nat
  failed : List String

/-- One iteration of the export loop (lines 230-260): a query failure
sends the table name to failed_tables; otherwise write_to_excel runs,
a raise from it sends the table to failed_tables, and a normal return
increments exported_files (line 254) whether or not a workbook was
actually written. -/
def exportStep (st : ExportState) (t : TableRun) : ExportState :=
  if t.queryOk then
    let w := write_to_excel st.fs st.reg t
    if w.raised then
      { fs := w.fs, reg := w.reg, exported := st.exported,
        failed := st.failed ++ [t.name] }
    else
      { fs := w.fs, reg := w.reg, exported := st.exported + 1,
        failed := st.failed }
  else
    { st with failed := st.failed ++ [t.name] }

/-- The export loop over the discovered tables, from an initial output
directory state; existing_filenames starts empty (exporter line 23). -/
def export_run (fs0 : List String) (tables : List TableRun) :
    ExportState :=
  tables.foldl exportStep
    { fs := fs0, reg := fun _ => 0, exported := 0, failed := [] }

/-! ### Claim theorem for C2 -/

/-- C2: evaluation of the exporter at a run of three tables with
comments "foo", "foo", "foo_2" against an initially empty output
directory, every query and write succeeding.  The second table is
written as foo_2.xlsx; the third table's fresh registry name is also
foo_2.xlsx, which is now on disk, so write_to_excel returns without
writing.  The run ends with exported_files = 3, no failed table, and
only two workbooks on disk: the third successfully queried table
produced no workbook yet was not recorded as failed, and was counted
as exported — contradicting the claim and the code's own comment that
the already-exists branch is unreachable. -/
theorem export_silent_skip :
    (export_run [] [⟨"t1", "foo", true, true⟩, ⟨"t2", "foo", true, true⟩,
        ⟨"t3", "foo_2", true, true⟩]).exported = 3
      ∧ (export_run [] [⟨"t1", "foo", true, true⟩, ⟨"t2", "foo", true, true⟩,
          ⟨"t3", "foo_2", true, true⟩]).failed = []
      ∧ (export_run [] [⟨"t1", "foo", true, true⟩, ⟨"t2", "foo", true, true⟩,
          ⟨"t3", "foo_2", true, true⟩]).fs = ["foo_2.xlsx", "foo.xlsx"] := by
  refine ⟨by decide, by decide, by decide⟩

end DataToolkit
